import Mathlib

/-!
Verification development for the parallel evaluation and result-regularization
engine of `src/src/uncertainpy/run_model.py` (class `RunModel`).

The Python data values flowing through this engine are numpy arrays (or plain
floats, which numpy treats as 0-d arrays of shape `()`).  We embed them as
`NDArray`: a shape (list of dimension sizes, `[]` for 0-d) together with the
flattened list of scalar entries.  A scalar is either the invalid placeholder
`nan` or a numeric value (embedded as a rational).  `np.all(np.isnan(U))`
becomes `NDArray.allNaN` (true for every entry `nan`; vacuously true on empty
data, matching numpy's `np.all` on an empty array).

A per-run result dictionary (`result = {feature: {"U": ..., "t": ...,
["interpolation": ...]}, ...}`) is embedded as an association list from
feature names to `Entry` records; `List.lookup` gives Python's dict access
(first binding wins, and producers never create duplicate keys).
-/

namespace RunModel

/-- A numpy scalar: either the `nan` invalid placeholder or a numeric value. -/
inductive Scalar where
  | nan : Scalar
  | val : ℚ → Scalar
deriving DecidableEq

/-- `np.isnan` on one scalar. -/
def Scalar.isnan : Scalar → Bool
  | .nan => true
  | .val _ => false

/-- A numpy array: its shape tuple and its flattened data.
A Python float is the 0-d array `⟨[], [x]⟩`. -/
structure NDArray where
  shape : List Nat
  data : List Scalar
deriving DecidableEq

/-- `np.all(np.isnan(a))`: every entry of `a` is the invalid placeholder. -/
def NDArray.allNaN (a : NDArray) : Bool := a.data.all Scalar.isnan

/-- `np.ndim`: the number of axes. -/
def NDArray.ndim (a : NDArray) : Nat := a.shape.length

/-- Python `len` of an array (the size of its first axis). -/
def npLen (a : NDArray) : Nat := a.shape.headD 0

/-- `np.full(shape, np.nan, dtype=float)` for `shape` a tuple or `None`.
numpy historically treats `shape=None` as an alias for the empty tuple `()`
(deprecated only in numpy 1.20), so the `None` case yields the 0-d array
holding a single `nan`. -/
def npFull (sh : Option (List Nat)) : NDArray :=
  match sh with
  | none => ⟨[], [Scalar.nan]⟩
  | some s => ⟨s, List.replicate s.prod Scalar.nan⟩

/-- The two per-feature components regularized by `regularize_nan_results`:
the output `"U"` and the time axis `"t"`. -/
inductive Comp where
  | U : Comp
  | t : Comp
deriving DecidableEq

/-- A scipy interpolation object: evaluated pointwise at arbitrary scalars
(scipy evaluates a 1-d interpolator elementwise on an input array). -/
def Interp : Type := Scalar → Scalar

/-- The value of one feature in one run record: the `"t"` and `"U"` fields,
plus the optional `"interpolation"` field carried by adaptive features. -/
structure Entry where
  t : NDArray
  U : NDArray
  interpolation : Option Interp

/-- Read component `c` of an entry (`entry["U"]` / `entry["t"]`). -/
def Entry.comp (e : Entry) : Comp → NDArray
  | .U => e.U
  | .t => e.t

/-- Write component `c` of an entry. -/
def Entry.setComp (e : Entry) : Comp → NDArray → Entry
  | .U, a => { e with U := a }
  | .t, a => { e with t := a }

/-- One run record: the dictionary from feature names to entries. -/
abbrev Result := List (String × Entry)

/-- `result.keys()`. -/
def Result.keys (r : Result) : List String := r.map Prod.fst

/-- The entirely-invalid entry used as the default reading of a missing key. -/
def nanEntry : Entry := ⟨⟨[], [Scalar.nan]⟩, ⟨[], [Scalar.nan]⟩, none⟩

/-- `result[feature]`, with a missing key read as the all-invalid entry
(producers always populate every feature key uniformly). -/
def getEntry (r : Result) (f : String) : Entry := (List.lookup f r).getD nanEntry

/-- `result[feature]["U"]`. -/
def getU (r : Result) (f : String) : NDArray := (getEntry r f).U

/-- The sequence `results[i][feature][c]` over the ensemble, as optional
values (`none` where a record lacks the feature key). -/
def compOpt (rs : List Result) (f : String) (c : Comp) : List (Option NDArray) :=
  rs.map (fun r => (List.lookup f r).map (fun e => e.comp c))

/-- The sequence of present `results[i][feature][c]` values over the ensemble. -/
def entriesOfC (rs : List Result) (f : String) (c : Comp) : List NDArray :=
  rs.filterMap (fun r => (List.lookup f r).map (fun e => e.comp c))

/-- `results[0].keys()` (the feature list driving every loop); empty ensemble
gives the empty list. -/
def headKeys (rs : List Result) : List String :=
  match rs with
  | [] => []
  | r :: _ => r.keys

/-! ## The NaN regularizer (`regularize_nan_results`) -/

/-- The contribution of one record to the reference-shape search: the shape
of its component-`c` entry when present and not entirely `nan`. -/
def shapeProbe (c : Comp) (o : Option Entry) : Option (List Nat) :=
  match o with
  | none => none
  | some e => if (e.comp c).allNaN then none else some (e.comp c).shape

/-- The shape of the first result whose component `c` for feature `f` is not
entirely `nan` (the reference-shape search loop of `regularize`). -/
def findShape (rs : List Result) (f : String) (c : Comp) : Option (List Nat) :=
  rs.findSome? (fun r => shapeProbe c (List.lookup f r))

/-- The body of the update loop for one array: replace an entirely-`nan`
array whose shape differs from the current reference `sh` by
`np.full(sh, np.nan)`.  `sh = none` models the Python variable still holding
`None`, and `np.shape(U) != None` is always true. -/
def arrReg (sh : Option (List Nat)) (a : NDArray) : NDArray :=
  if a.allNaN = true ∧ some a.shape ≠ sh then npFull sh else a

/-- The update applied to one entry of one record. -/
def regularizeEntry (c : Comp) (sh : Option (List Nat)) (e : Entry) : Entry :=
  if (e.comp c).allNaN = true ∧ some (e.comp c).shape ≠ sh then
    e.setComp c (npFull sh)
  else e

/-- `results[i][feature][c] = ...` on one record: rewrite the (unique)
binding of feature `f`. -/
def regularizeResult (c : Comp) (sh : Option (List Nat)) (f : String) :
    Result → Result
  | [] => []
  | (k, e) :: rest =>
      if k = f then (k, regularizeEntry c sh e) :: rest
      else (k, e) :: regularizeResult c sh f rest

/-- Processing of one feature inside `regularize`: look for a reference
shape (keeping the previous one when none is found — the `shape` variable is
initialized once, outside the feature loop), then rewrite every
entirely-`nan` entry of this feature whose shape differs. -/
def regStep (c : Comp) (st : Option (List Nat) × List Result) (f : String) :
    Option (List Nat) × List Result :=
  let sh := match findShape st.2 f c with
            | some s => some s
            | none => st.1
  (sh, st.2.map (regularizeResult c sh f))

/-- The inner `regularize(results, data)` helper for one component. -/
def regularizeComp (c : Comp) (results : List Result) : List Result :=
  match results with
  | [] => results
  | r :: _ => ((r.keys).foldl (regStep c) (none, results)).2

/-- `RunModel.regularize_nan_results`: regularize the `"U"` component of
every feature, then the `"t"` component. -/
def regularize_nan_results (results : List Result) : List Result :=
  regularizeComp Comp.t (regularizeComp Comp.U results)

/-! ## The adaptivity detector (`is_adaptive`) -/

/-- Index of the first record whose output for `f` is not entirely `nan`
(the counter `i` of `is_adaptive`; equals the ensemble size when no record
qualifies). -/
def firstValidIdx (rs : List Result) (f : String) : Nat :=
  rs.findIdx (fun r => !(getU r f).allNaN)

/-- The scan loop of `is_adaptive`: compare each valid output's shape with
the previous valid output's shape. -/
def adaptiveScan (f : String) (uPrev : NDArray) : List Result → Bool
  | [] => false
  | r :: rest =>
      if !(getU r f).allNaN then
        if uPrev.shape ≠ (getU r f).shape then true
        else adaptiveScan f (getU r f) rest
      else adaptiveScan f uPrev rest

/-- `RunModel.is_adaptive(results, feature)`. -/
def is_adaptive (rs : List Result) (f : String) : Bool :=
  match rs.drop (firstValidIdx rs f) with
  | [] => false
  | r :: rest => adaptiveScan f (getU r f) (r :: rest)

/-- The outputs of the records whose output for `f` is not entirely `nan`,
in ensemble order. -/
def validUs (rs : List Result) (f : String) : List NDArray :=
  (rs.map (fun r => getU r f)).filter (fun u => !u.allNaN)

/-! ## The interpolation aligner (`apply_interpolation`) -/

/-- The maximum of a list of naturals (`max(lengths)`). -/
def maxL (l : List Nat) : Nat := l.foldr max 0

/-- `np.argmax`: the index of the first occurrence of the maximum value
(numpy's documented tie-breaking).  numpy raises on an empty input; callers
always pass a non-empty list. -/
def npArgmax (l : List Nat) : Nat := l.indexOf (maxL l)

/-- The empty array, used as an out-of-range default (never reached on the
inputs the code actually passes). -/
def emptyArr : NDArray := ⟨[], []⟩

/-- `RunModel.apply_interpolation(t_interpolate, interpolation)`: pick the
candidate time array with the most points (first maximum, as `np.argmax`),
then evaluate every run's interpolation object on it.  A scipy interpolator
maps an array elementwise, so `inter(t)` has the shape of `t`. -/
def apply_interpolation (ts : List NDArray) (interps : List Interp) :
    NDArray × List NDArray :=
  let lengths := ts.map npLen
  let t := ts.getD (npArgmax lengths) emptyArr
  (t, interps.map (fun inter => ⟨t.shape, t.data.map inter⟩))

/-! ## `results_to_data` -/

/-- The Python exceptions raised by `results_to_data` and its helpers. -/
inductive PyError where
  | valueError (msg : String) : PyError
  | notImplementedError (msg : String) : PyError
  | keyError (msg : String) : PyError
  | indexError (msg : String) : PyError
deriving DecidableEq

/-- The configuration `results_to_data` consults: the model's name and
adaptive flag, the declared-adaptive feature set, and the display labels. -/
structure UQConfig where
  modelName : String
  modelAdaptive : Bool
  featuresAdaptive : List String
  modelLabels : List String
  featuresLabels : List (String × List String)

/-- The message of the undeclared-adaptivity configuration error. -/
def adaptiveErrMsg (f : String) : String :=
  f ++ ": The number of points varies between runs." ++
    " Try setting adaptive to True in " ++ f

/-- The message of the 2-D-interpolation `NotImplementedError`. -/
def notImplMsg (f : String) : String :=
  "Feature: " ++ f ++ "," ++ " no support for >= 2D interpolation"

/-- The message of the no-usable-time-axis error. -/
def neitherTMsg (f : String) : String :=
  "Neither " ++ f ++ " or model has t values to use in interpolation"

/-- The storage-branch test: `feature in self.features.adaptive or
(feature == self.model.name and self.model.adaptive)`. -/
def declaredAdaptiveStore (cfg : UQConfig) (f : String) : Bool :=
  decide (f ∈ cfg.featuresAdaptive ∨ (f = cfg.modelName ∧ cfg.modelAdaptive = true))

/-- The undeclared-adaptivity check for one feature: adaptive in the data
but not declared adaptive by the configuration. -/
def checkOffender (cfg : UQConfig) (res : List Result) (f : String) : Bool :=
  is_adaptive res f &&
    decide ((f = cfg.modelName ∧ cfg.modelAdaptive = false) ∨
            (f ≠ cfg.modelName ∧ f ∉ cfg.featuresAdaptive))

/-- One iteration of the 1-D-adaptive collection loop: the candidate time
axis for one run (the feature's own `"t"` if not entirely invalid, else the
model's `"t"`, else a fatal `ValueError`), paired with the run's
interpolation object (missing dict keys raise `KeyError`). -/
def runCandidate (cfg : UQConfig) (f : String) (r : Result) :
    Except PyError (NDArray × Interp) := do
  let e ← match List.lookup f r with
          | some e => Except.ok e
          | none => Except.error (PyError.keyError f)
  let tcand ←
    if !e.t.allNaN then Except.ok e.t
    else
      match List.lookup cfg.modelName r with
      | none => Except.error (PyError.keyError cfg.modelName)
      | some me =>
          if !me.t.allNaN then Except.ok me.t
          else Except.error (PyError.valueError (neitherTMsg f))
  match e.interpolation with
  | some itp => Except.ok (tcand, itp)
  | none => Except.error (PyError.keyError "interpolation")

/-- The 1-D-adaptive collection loop over all runs. -/
def collectRuns (cfg : UQConfig) (f : String) :
    List Result → Except PyError (List (NDArray × Interp))
  | [] => Except.ok []
  | r :: rest => do
      let p ← runCandidate cfg f r
      let ps ← collectRuns cfg f rest
      Except.ok (p :: ps)

/-- The plain stacking loop: `for result in results:
data[feature]["U"].append(result[feature]["U"])`. -/
def collectUs (f : String) : List Result → Except PyError (List NDArray)
  | [] => Except.ok []
  | r :: rest => do
      let u ← match List.lookup f r with
              | some e => Except.ok e.U
              | none => Except.error (PyError.keyError f)
      let us ← collectUs f rest
      Except.ok (u :: us)

/-- Storage of one feature (the body of the second `for feature in data`
loop): adaptive features of dimension ≥ 2 are unimplemented, 1-D adaptive
features are interpolated, 0-D adaptive features and non-adaptive features
are stacked as-is with the first run's time axis. -/
def storeFeature (cfg : UQConfig) (res : List Result) (r0 : Result)
    (f : String) : Except PyError (NDArray × List NDArray) :=
  if declaredAdaptiveStore cfg f then
    match List.lookup f r0 with
    | none => Except.error (PyError.keyError f)
    | some e0 =>
        if e0.U.ndim ≥ 2 then
          Except.error (PyError.notImplementedError (notImplMsg f))
        else if e0.U.ndim = 1 then do
          let pairs ← collectRuns cfg f res
          Except.ok (apply_interpolation (pairs.map Prod.fst) (pairs.map Prod.snd))
        else do
          let us ← collectUs f res
          Except.ok (e0.t, us)
  else
    match List.lookup f r0 with
    | none => Except.error (PyError.keyError f)
    | some e0 => do
        let us ← collectUs f res
        Except.ok (e0.t, us)

/-- The storage loop over all features, in `results[0].keys()` order. -/
def storeAll (cfg : UQConfig) (res : List Result) (r0 : Result) :
    List String → Except PyError (List (String × NDArray × List NDArray))
  | [] => Except.ok []
  | f :: fs => do
      let p ← storeFeature cfg res r0 f
      let ds ← storeAll cfg res r0 fs
      Except.ok ((f, p) :: ds)

/-- One feature's slot in the final `Data` container. -/
structure DataFeature where
  labels : Option (List String)
  t : NDArray
  U : List NDArray

/-- The final `Data` container (the coercion of the stored `"U"` lists into
one stacked numpy array is shape-preserving and not modelled, as no claim
refers to it). -/
structure UQData where
  modelName : String
  features : List (String × DataFeature)

/-- Display labels attached while adding features: the model's own labels
for the model, a declared feature label otherwise, else none. -/
def labelsFor (cfg : UQConfig) (f : String) : Option (List String) :=
  if f = cfg.modelName then some cfg.modelLabels
  else List.lookup f cfg.featuresLabels

/-- `RunModel.results_to_data(results)`: regularize, check for undeclared
adaptivity (fatal `ValueError` naming the first offending feature), then
store every feature, interpolating declared-adaptive 1-D features. -/
def results_to_data (cfg : UQConfig) (results : List Result) :
    Except PyError UQData :=
  match results with
  | [] => Except.error (PyError.indexError "list index out of range")
  | r0 :: _ =>
      match (r0.keys).find? (checkOffender cfg (regularize_nan_results results)) with
      | some f => Except.error (PyError.valueError (adaptiveErrMsg f))
      | none =>
          match regularize_nan_results results with
          | [] => Except.error (PyError.indexError "list index out of range")
          | r0r :: restr => do
              let stored ← storeAll cfg (r0r :: restr) r0r r0.keys
              Except.ok
                { modelName := cfg.modelName,
                  features := stored.map (fun p =>
                    (p.1, { labels := labelsFor cfg p.1,
                            t := p.2.1, U := p.2.2 })) }

/-! ## The scheduler (`create_model_parameters`, `evaluate_nodes`) -/

/-- A concrete parameter set: parameter name to sampled or default value. -/
abbrev ParamSet := List (String × ℚ)

/-- `nodes.T` for a rectangular 2-D sample matrix given as a list of rows:
the list of columns (numpy transpose, modelled by its specification; the
column count is the common row length). -/
def npT (nodes : List (List ℚ)) : List (List ℚ) :=
  (List.range (nodes.headD []).length).map (fun i =>
    nodes.map (fun row => row.getD i 0))

/-- The parameter set for one column: the sampled values overlaid on the
uncertain-parameter names, then every default parameter not already set. -/
def buildParameterSet (defaults : List (String × ℚ)) (uncertain : List String)
    (node : List ℚ) : ParamSet :=
  defaults.foldl
    (fun acc p => if acc.any (fun q => q.1 = p.1) then acc else acc ++ [p])
    (uncertain.zip node)

/-- `RunModel.create_model_parameters(nodes, uncertain_parameters)`: one
parameter set per column of `nodes`.  (The `node.ndim == 0` branch concerns
a 1-D `nodes` array and is outside this matrix model.) -/
def create_model_parameters (defaults : List (String × ℚ))
    (nodes : List (List ℚ)) (uncertain : List String) : List ParamSet :=
  (npT nodes).map (buildParameterSet defaults uncertain)

/-- Modelled from the documented contract of `multiprocess.Pool.imap`:
workers may finish in any order (`completion`, a permutation of the task
indices), and `imap` yields each task's result in submission order,
buffering completed results until their turn. -/
def poolIMap {α β : Type} (f : α → β) (tasks : List α)
    (completion : List Nat) : List β :=
  let completed := completion.filterMap (fun i =>
    (tasks.get? i).map (fun a => (i, f a)))
  (List.range tasks.length).filterMap (fun j => List.lookup j completed)

/-- `RunModel.evaluate_nodes(nodes, uncertain_parameters)`, parameterized by
the worker evaluator `prun` (`self._parallel.run`, an external collaborator)
and by the order in which the pooled workers complete.  The virtual-display
and progress-bar side effects have no bearing on the returned value. -/
def evaluate_nodes {R : Type} (prun : ParamSet → R)
    (defaults : List (String × ℚ)) (nodes : List (List ℚ))
    (uncertain : List String) (completion : List Nat) : List R :=
  poolIMap prun (create_model_parameters defaults nodes uncertain) completion

/-! ## Basic lemmas about entries and single-record updates -/

theorem comp_setComp_same (e : Entry) (c : Comp) (a : NDArray) :
    (e.setComp c a).comp c = a := by
  cases c <;> rfl

theorem comp_setComp_other (e : Entry) {c c' : Comp} (a : NDArray)
    (h : c' ≠ c) : (e.setComp c a).comp c' = e.comp c' := by
  cases c <;> cases c' <;> first | rfl | exact absurd rfl h

theorem npFull_allNaN (sh : Option (List Nat)) : (npFull sh).allNaN = true := by
  cases sh with
  | none => rfl
  | some s =>
      unfold npFull NDArray.allNaN
      rw [List.all_eq_true]
      intro a ha
      rw [List.eq_of_mem_replicate ha]
      rfl

theorem regularizeEntry_comp (c : Comp) (sh : Option (List Nat)) (e : Entry) :
    (regularizeEntry c sh e).comp c = arrReg sh (e.comp c) := by
  unfold regularizeEntry arrReg
  split
  · rw [comp_setComp_same]
  · rfl

theorem regularizeEntry_comp_other {c c' : Comp} (sh : Option (List Nat))
    (e : Entry) (h : c' ≠ c) :
    (regularizeEntry c sh e).comp c' = e.comp c' := by
  unfold regularizeEntry
  split
  · rw [comp_setComp_other _ _ h]
  · rfl

theorem arrReg_valid (sh : Option (List Nat)) (a : NDArray)
    (h : a.allNaN = false) : arrReg sh a = a := by
  unfold arrReg
  split
  · next hc => rw [hc.1] at h; exact absurd h (by simp)
  · rfl

theorem arrReg_allNaN (sh : Option (List Nat)) (a : NDArray) :
    (arrReg sh a).allNaN = a.allNaN := by
  unfold arrReg
  split
  · next hc => rw [npFull_allNaN, hc.1]
  · rfl

theorem arrReg_idem (sh : Option (List Nat)) (a : NDArray) :
    arrReg sh (arrReg sh a) = arrReg sh a := by
  by_cases h : a.allNaN = true ∧ some a.shape ≠ sh
  · have h1 : arrReg sh a = npFull sh := by unfold arrReg; rw [if_pos h]
    rw [h1]
    cases sh with
    | none => rfl
    | some s =>
        unfold arrReg
        rw [if_neg]
        intro hc
        exact hc.2 rfl
  · unfold arrReg
    rw [if_neg h, if_neg h]

theorem keys_regularizeResult (c : Comp) (sh : Option (List Nat))
    (f : String) (r : Result) :
    (regularizeResult c sh f r).keys = r.keys := by
  induction r with
  | nil => rfl
  | cons p rest ih =>
      obtain ⟨k, e⟩ := p
      unfold regularizeResult
      split
      · rfl
      · simp only [Result.keys, List.map_cons] at ih ⊢
        rw [ih]

theorem lookup_regularizeResult (c : Comp) (sh : Option (List Nat))
    (f g : String) (r : Result) :
    List.lookup g (regularizeResult c sh f r) =
      if g = f then (List.lookup f r).map (regularizeEntry c sh)
      else List.lookup g r := by
  induction r with
  | nil => simp [regularizeResult, List.lookup]
  | cons p rest ih =>
      obtain ⟨k, e⟩ := p
      unfold regularizeResult
      by_cases hkf : k = f
      · subst hkf
        rw [if_pos rfl]
        by_cases hgk : g = k
        · subst hgk
          simp [List.lookup]
        · have hb : (g == k) = false := by simp [hgk]
          simp [List.lookup, hb, hgk]
      · rw [if_neg hkf]
        by_cases hgk : g = k
        · subst hgk
          have hgf : ¬g = f := hkf
          simp [List.lookup, hgf]
        · have hb : (g == k) = false := by simp [hgk]
          have hfk : (f == k) = false := by
            simp only [beq_eq_false_iff_ne, ne_eq]
            intro h
            exact hkf h.symm
          simp [List.lookup, hb, hfk, ih]

/-! ## Per-step and fold-level invariance lemmas for the regularizer -/

theorem findSome?_ext {α β : Type} {f g : α → Option β} :
    ∀ (l : List α), (∀ a ∈ l, f a = g a) → l.findSome? f = l.findSome? g
  | [], _ => rfl
  | a :: l, h => by
      rw [List.findSome?_cons, List.findSome?_cons, h a (List.mem_cons_self a l)]
      cases g a with
      | some b => rfl
      | none => exact findSome?_ext l (fun x hx => h x (List.mem_cons_of_mem a hx))

theorem compOpt_map_reg_ne {c c' : Comp} (sh : Option (List Nat))
    {f g : String} (rs : List Result) (h : g ≠ f) :
    compOpt (rs.map (regularizeResult c sh f)) g c' = compOpt rs g c' := by
  unfold compOpt
  rw [List.map_map]
  apply List.map_congr_left
  intro r _
  simp only [Function.comp_apply, lookup_regularizeResult, if_neg h]

theorem compOpt_map_reg_other {c c' : Comp} (sh : Option (List Nat))
    (f g : String) (rs : List Result) (h : c' ≠ c) :
    compOpt (rs.map (regularizeResult c sh f)) g c' = compOpt rs g c' := by
  unfold compOpt
  rw [List.map_map]
  apply List.map_congr_left
  intro r _
  simp only [Function.comp_apply, lookup_regularizeResult]
  split
  · next hgf =>
      subst hgf
      cases List.lookup g r with
      | none => rfl
      | some e => simp [regularizeEntry_comp_other sh e h]
  · rfl

theorem compOpt_map_reg_same (c : Comp) (sh : Option (List Nat))
    (f : String) (rs : List Result) :
    compOpt (rs.map (regularizeResult c sh f)) f c =
      (compOpt rs f c).map (Option.map (arrReg sh)) := by
  unfold compOpt
  rw [List.map_map, List.map_map]
  apply List.map_congr_left
  intro r _
  simp only [Function.comp_apply, lookup_regularizeResult, if_pos rfl]
  cases List.lookup f r with
  | none => rfl
  | some e => simp [regularizeEntry_comp]

theorem Bool.not_true_false {b : Bool} (h : ¬b = true) : b = false := by
  cases b
  · rfl
  · exact absurd rfl h

theorem shapeProbe_regularizeEntry (c c' : Comp) (sh : Option (List Nat))
    (e : Entry) :
    shapeProbe c' (some (regularizeEntry c sh e)) = shapeProbe c' (some e) := by
  by_cases hc : c' = c
  · subst hc
    show (if ((regularizeEntry c' sh e).comp c').allNaN = true then none
          else some ((regularizeEntry c' sh e).comp c').shape) =
        (if ((e.comp c')).allNaN = true then none else some (e.comp c').shape)
    rw [regularizeEntry_comp]
    by_cases hv : (e.comp c').allNaN = true
    · rw [hv, if_pos rfl, arrReg_allNaN, hv, if_pos rfl]
    · rw [arrReg_valid _ _ (Bool.not_true_false hv)]
  · show (if ((regularizeEntry c sh e).comp c').allNaN = true then none
          else some ((regularizeEntry c sh e).comp c').shape) = _
    rw [regularizeEntry_comp_other sh e hc]
    rfl

theorem findShape_map_reg (c c' : Comp) (sh : Option (List Nat))
    (f g : String) (rs : List Result) :
    findShape (rs.map (regularizeResult c sh f)) g c' = findShape rs g c' := by
  unfold findShape
  rw [List.findSome?_map]
  apply findSome?_ext
  intro r _
  simp only [Function.comp_apply, lookup_regularizeResult]
  by_cases hgf : g = f
  · subst hgf
    rw [if_pos rfl]
    cases hl : List.lookup g r with
    | none => rfl
    | some e => exact shapeProbe_regularizeEntry c c' sh e
  · rw [if_neg hgf]

theorem keysList_map_reg (c : Comp) (sh : Option (List Nat)) (f : String)
    (rs : List Result) :
    (rs.map (regularizeResult c sh f)).map Result.keys = rs.map Result.keys := by
  rw [List.map_map]
  apply List.map_congr_left
  intro r _
  exact keys_regularizeResult c sh f r

/-- The running reference shape after processing the feature list `fs`
(computed from the findShape values of a fixed ensemble, which every
regularization step preserves). -/
def staleUpto (rs : List Result) (c : Comp) (fs : List String)
    (sh0 : Option (List Nat)) : Option (List Nat) :=
  fs.foldl (fun sh g =>
    match findShape rs g c with
    | some s => some s
    | none => sh) sh0

theorem staleUpto_congr {rs1 rs2 : List Result} (c : Comp)
    (h : ∀ g, findShape rs1 g c = findShape rs2 g c) :
    ∀ (fs : List String) (sh0 : Option (List Nat)),
      staleUpto rs1 c fs sh0 = staleUpto rs2 c fs sh0
  | [], _ => rfl
  | g :: fs, sh0 => by
      unfold staleUpto
      rw [List.foldl_cons, List.foldl_cons, h g]
      exact staleUpto_congr c h fs _

theorem foldl_regStep_keysList (c : Comp) :
    ∀ (fs : List String) (st : Option (List Nat) × List Result),
      ((fs.foldl (regStep c) st).2).map Result.keys = st.2.map Result.keys
  | [], _ => rfl
  | f :: fs, st => by
      rw [List.foldl_cons, foldl_regStep_keysList c fs]
      exact keysList_map_reg c _ f st.2

theorem findShape_foldl_regStep (c c' : Comp) (g : String) :
    ∀ (fs : List String) (st : Option (List Nat) × List Result),
      findShape ((fs.foldl (regStep c) st).2) g c' = findShape st.2 g c'
  | [], _ => rfl
  | f :: fs, st => by
      rw [List.foldl_cons, findShape_foldl_regStep c c' g fs]
      exact findShape_map_reg c c' _ f g st.2

theorem compOpt_foldl_regStep_not_mem (c c' : Comp) {g : String} :
    ∀ (fs : List String) (st : Option (List Nat) × List Result),
      g ∉ fs →
      compOpt ((fs.foldl (regStep c) st).2) g c' = compOpt st.2 g c'
  | [], _, _ => rfl
  | f :: fs, st, h => by
      rw [List.foldl_cons,
        compOpt_foldl_regStep_not_mem c c' fs _ (fun hm => h (List.mem_cons_of_mem f hm))]
      exact compOpt_map_reg_ne _ st.2 (fun he => h (he ▸ List.mem_cons_self f fs))

theorem compOpt_foldl_regStep_other {c c' : Comp} (g : String) (h : c' ≠ c) :
    ∀ (fs : List String) (st : Option (List Nat) × List Result),
      compOpt ((fs.foldl (regStep c) st).2) g c' = compOpt st.2 g c'
  | [], _ => rfl
  | f :: fs, st => by
      rw [List.foldl_cons, compOpt_foldl_regStep_other g h fs]
      exact compOpt_map_reg_other _ f g st.2 h

theorem foldl_regStep_fst (c : Comp) :
    ∀ (fs : List String) (st : Option (List Nat) × List Result),
      (fs.foldl (regStep c) st).1 = staleUpto st.2 c fs st.1
  | [], _ => rfl
  | f :: fs, st => by
      rw [List.foldl_cons, foldl_regStep_fst c fs]
      have hfs : ∀ g, findShape ((regStep c st f).2) g c = findShape st.2 g c :=
        fun g => findShape_map_reg c c _ f g st.2
      rw [staleUpto_congr c hfs fs]
      rfl

/-! ## Pass-level lemmas -/

theorem regularizeComp_keysList (c : Comp) (rs : List Result) :
    (regularizeComp c rs).map Result.keys = rs.map Result.keys := by
  cases rs with
  | nil => rfl
  | cons r rest => exact foldl_regStep_keysList c r.keys (none, r :: rest)

theorem headKeys_regularizeComp (c : Comp) (rs : List Result) :
    headKeys (regularizeComp c rs) = headKeys rs := by
  cases rs with
  | nil => rfl
  | cons r rest =>
      have h := regularizeComp_keysList c (r :: rest)
      cases hrs : regularizeComp c (r :: rest) with
      | nil =>
          rw [hrs] at h
          simp only [List.map_nil, List.map_cons] at h
          exact List.noConfusion h
      | cons rq rest' =>
          rw [hrs] at h
          simp only [List.map_cons, List.cons.injEq] at h
          exact h.1

theorem findShape_regularizeComp (c c' : Comp) (g : String) (rs : List Result) :
    findShape (regularizeComp c rs) g c' = findShape rs g c' := by
  cases rs with
  | nil => rfl
  | cons r rest => exact findShape_foldl_regStep c c' g r.keys (none, r :: rest)

theorem compOpt_regularizeComp_other {c c' : Comp} (g : String)
    (rs : List Result) (h : c' ≠ c) :
    compOpt (regularizeComp c rs) g c' = compOpt rs g c' := by
  cases rs with
  | nil => rfl
  | cons r rest => exact compOpt_foldl_regStep_other g h r.keys (none, r :: rest)

theorem compOpt_regularizeComp_not_mem (c : Comp) {c' : Comp} {g : String}
    (rs : List Result) (h : g ∉ headKeys rs) :
    compOpt (regularizeComp c rs) g c' = compOpt rs g c' := by
  cases rs with
  | nil => rfl
  | cons r rest => exact compOpt_foldl_regStep_not_mem c c' r.keys (none, r :: rest) h

theorem dropWhile_ne_head {f : String} :
    ∀ (l : List String), f ∈ l →
      ∃ post, l.dropWhile (fun g => g != f) = f :: post
  | [], h => absurd h (List.not_mem_nil f)
  | a :: l, h => by
      by_cases haf : a = f
      · refine ⟨l, ?_⟩
        have hb : (a != f) = false := by simp [haf]
        simp only [List.dropWhile_cons, hb]
        simp [haf]
      · have hmem : f ∈ l := by
          cases List.mem_cons.mp h with
          | inl he => exact absurd he.symm haf
          | inr hm => exact hm
        obtain ⟨post, hpost⟩ := dropWhile_ne_head l hmem
        refine ⟨post, ?_⟩
        have hb : (a != f) = true := by simp [haf]
        simp only [List.dropWhile_cons, hb]
        exact hpost

theorem mem_takeWhile_ne {f g : String} :
    ∀ {l : List String}, g ∈ l.takeWhile (fun x => x != f) → g ≠ f := by
  intro l
  induction l with
  | nil => intro h; exact absurd h (List.not_mem_nil g)
  | cons a l ih =>
      intro h
      by_cases haf : a = f
      · have hb : (a != f) = false := by simp [haf]
        simp only [List.takeWhile_cons, hb] at h
        exact absurd h (List.not_mem_nil g)
      · have hb : (a != f) = true := by simp [haf]
        simp only [List.takeWhile_cons, hb] at h
        cases List.mem_cons.mp h with
        | inl he => exact fun hgf => haf (he ▸ hgf)
        | inr hm => exact ih hm

/-- The value the Python `shape` variable holds while the update loop for
feature `f` runs: the last reference shape found for `f` or for any feature
processed before it (`none` when none was ever found). -/
def shAt (rs : List Result) (c : Comp) (f : String) : Option (List Nat) :=
  staleUpto rs c (((headKeys rs).takeWhile (fun g => g != f)) ++ [f]) none

theorem staleUpto_append_single (rs : List Result) (c : Comp)
    (l : List String) (g : String) (sh0 : Option (List Nat)) :
    staleUpto rs c (l ++ [g]) sh0 =
      match findShape rs g c with
      | some s => some s
      | none => staleUpto rs c l sh0 := by
  unfold staleUpto
  rw [List.foldl_append]
  rfl

theorem compOpt_foldl_split (c : Comp) (rs0 : List Result) (f : String)
    (pre post : List String) (hfpre : f ∉ pre) (hfpost : f ∉ post) :
    compOpt (((pre ++ f :: post).foldl (regStep c) (none, rs0)).2) f c =
      (compOpt rs0 f c).map
        (Option.map (arrReg (staleUpto rs0 c (pre ++ [f]) none))) := by
  rw [List.foldl_append, List.foldl_cons]
  set st1 := pre.foldl (regStep c) (none, rs0) with hst1
  have h1 : compOpt st1.2 f c = compOpt rs0 f c :=
    compOpt_foldl_regStep_not_mem c c pre _ hfpre
  have h2 : findShape st1.2 f c = findShape rs0 f c :=
    findShape_foldl_regStep c c f pre _
  have h3 : st1.1 = staleUpto rs0 c pre none :=
    foldl_regStep_fst c pre _
  have hsh : (regStep c st1 f).1 = staleUpto rs0 c (pre ++ [f]) none := by
    show (match findShape st1.2 f c with
          | some s => some s
          | none => st1.1) = _
    rw [h2, h3, staleUpto_append_single]
  have hsnd : (regStep c st1 f).2 =
      st1.2.map (regularizeResult c ((regStep c st1 f).1) f) := rfl
  rw [compOpt_foldl_regStep_not_mem c c post _ hfpost, hsnd,
    compOpt_map_reg_same, h1, hsh]

theorem compOpt_regularizeComp_mem (c : Comp) (rs : List Result) (f : String)
    (hnd : (headKeys rs).Nodup) (hf : f ∈ headKeys rs) :
    compOpt (regularizeComp c rs) f c =
      (compOpt rs f c).map (Option.map (arrReg (shAt rs c f))) := by
  cases rs with
  | nil => exact absurd hf (List.not_mem_nil f)
  | cons r rest =>
      have hfk : f ∈ r.keys := hf
      obtain ⟨post, hpost⟩ := dropWhile_ne_head r.keys hfk
      have hsplit : r.keys = (r.keys.takeWhile (fun g => g != f)) ++ (f :: post) := by
        conv_lhs => rw [← List.takeWhile_append_dropWhile (p := fun g => g != f) (l := r.keys)]
        rw [hpost]
      have hfpre : f ∉ r.keys.takeWhile (fun g => g != f) :=
        fun hm => (mem_takeWhile_ne hm) rfl
      have hfpost : f ∉ post := by
        have hnd2 : ((r.keys.takeWhile (fun g => g != f)) ++ (f :: post)).Nodup := by
          rw [← hsplit]; exact hnd
        exact (List.nodup_cons.mp hnd2.of_append_right).1
      show compOpt (((r.keys).foldl (regStep c) (none, r :: rest)).2) f c = _
      rw [hsplit, compOpt_foldl_split c (r :: rest) f _ post hfpre hfpost]
      rfl

/-! ## The effect of the whole `regularize_nan_results` on one feature -/

theorem headKeys_regularize_nan (rs : List Result) :
    headKeys (regularize_nan_results rs) = headKeys rs := by
  unfold regularize_nan_results
  rw [headKeys_regularizeComp, headKeys_regularizeComp]

theorem findShape_regularize_nan (c : Comp) (g : String) (rs : List Result) :
    findShape (regularize_nan_results rs) g c = findShape rs g c := by
  unfold regularize_nan_results
  rw [findShape_regularizeComp, findShape_regularizeComp]

theorem shAt_congr {rs1 rs2 : List Result} (c : Comp) (f : String)
    (hk : headKeys rs1 = headKeys rs2)
    (hfs : ∀ g, findShape rs1 g c = findShape rs2 g c) :
    shAt rs1 c f = shAt rs2 c f := by
  unfold shAt
  rw [hk, staleUpto_congr c hfs]

theorem compOpt_regularize_nan (rs : List Result) (f : String) (c : Comp)
    (hnd : (headKeys rs).Nodup) (hf : f ∈ headKeys rs) :
    compOpt (regularize_nan_results rs) f c =
      (compOpt rs f c).map (Option.map (arrReg (shAt rs c f))) := by
  unfold regularize_nan_results
  cases c with
  | U =>
      rw [compOpt_regularizeComp_other f _ (by intro h; cases h),
        compOpt_regularizeComp_mem Comp.U rs f hnd hf]
  | t =>
      have hk : headKeys (regularizeComp Comp.U rs) = headKeys rs :=
        headKeys_regularizeComp Comp.U rs
      rw [compOpt_regularizeComp_mem Comp.t (regularizeComp Comp.U rs) f
          (hk ▸ hnd) (hk ▸ hf),
        compOpt_regularizeComp_other f rs (by intro h; cases h)]
      rw [shAt_congr Comp.t f hk (fun g => findShape_regularizeComp Comp.U Comp.t g rs)]

theorem compOpt_regularize_nan_not_mem {rs : List Result} {f : String}
    {c : Comp} (hf : f ∉ headKeys rs) :
    compOpt (regularize_nan_results rs) f c = compOpt rs f c := by
  unfold regularize_nan_results
  have hk : headKeys (regularizeComp Comp.U rs) = headKeys rs :=
    headKeys_regularizeComp Comp.U rs
  rw [compOpt_regularizeComp_not_mem Comp.t _ (hk ▸ hf),
    compOpt_regularizeComp_not_mem Comp.U rs hf]

/-! ## Characterization of `is_adaptive` -/

theorem validUs_nil (f : String) : validUs [] f = [] := rfl

theorem validUs_cons_valid {r : Result} {f : String}
    (h : (getU r f).allNaN = false) (rest : List Result) :
    validUs (r :: rest) f = getU r f :: validUs rest f := by
  unfold validUs
  rw [List.map_cons, List.filter_cons]
  simp [h]

theorem validUs_cons_invalid {r : Result} {f : String}
    (h : (getU r f).allNaN = true) (rest : List Result) :
    validUs (r :: rest) f = validUs rest f := by
  unfold validUs
  rw [List.map_cons, List.filter_cons]
  simp [h]

theorem adaptiveScan_cons_invalid {r : Result} {f : String} {u0 : NDArray}
    (h : (getU r f).allNaN = true) (rest : List Result) :
    adaptiveScan f u0 (r :: rest) = adaptiveScan f u0 rest := by
  conv_lhs => unfold adaptiveScan
  simp [h]

theorem adaptiveScan_cons_valid_ne {r : Result} {f : String} {u0 : NDArray}
    (h : (getU r f).allNaN = false) (hs : u0.shape ≠ (getU r f).shape)
    (rest : List Result) :
    adaptiveScan f u0 (r :: rest) = true := by
  unfold adaptiveScan
  simp [h, hs]

theorem adaptiveScan_cons_valid_eq {r : Result} {f : String} {u0 : NDArray}
    (h : (getU r f).allNaN = false) (hs : u0.shape = (getU r f).shape)
    (rest : List Result) :
    adaptiveScan f u0 (r :: rest) = adaptiveScan f (getU r f) rest := by
  conv_lhs => unfold adaptiveScan
  simp [h, hs]

theorem adaptiveScan_iff (f : String) :
    ∀ (l : List Result) (u0 : NDArray),
      adaptiveScan f u0 l = true ↔ ∃ u ∈ validUs l f, u.shape ≠ u0.shape
  | [], u0 => by simp [adaptiveScan, validUs_nil]
  | r :: rest, u0 => by
      cases hv : (getU r f).allNaN with
      | false =>
          rw [validUs_cons_valid hv rest]
          by_cases hs : u0.shape ≠ (getU r f).shape
          · rw [adaptiveScan_cons_valid_ne hv hs rest]
            constructor
            · intro _
              exact ⟨getU r f, List.mem_cons_self _ _, fun he => hs he.symm⟩
            · intro _
              rfl
          · have hse : u0.shape = (getU r f).shape := by
              by_contra hne
              exact hs hne
            rw [adaptiveScan_cons_valid_eq hv hse rest]
            rw [adaptiveScan_iff f rest (getU r f)]
            constructor
            · rintro ⟨u, hm, hu⟩
              exact ⟨u, List.mem_cons_of_mem _ hm, fun he => hu (he.trans hse)⟩
            · rintro ⟨u, hm, hu⟩
              cases List.mem_cons.mp hm with
              | inl he => exact absurd (he ▸ hse.symm) hu
              | inr hm2 => exact ⟨u, hm2, fun he => hu (he.trans hse.symm)⟩
      | true =>
          rw [validUs_cons_invalid hv rest, adaptiveScan_cons_invalid hv rest]
          exact adaptiveScan_iff f rest u0

theorem exists_pair_ne_iff (u0 : NDArray) (tail : List NDArray) :
    (∃ u ∈ u0 :: tail, ∃ v ∈ u0 :: tail, u.shape ≠ v.shape) ↔
      ∃ u ∈ tail, u.shape ≠ u0.shape := by
  constructor
  · rintro ⟨u, hu, v, hv, hne⟩
    by_cases hall : ∀ w ∈ tail, w.shape = u0.shape
    · exfalso
      have hu0 : u.shape = u0.shape := by
        cases List.mem_cons.mp hu with
        | inl he => rw [he]
        | inr hm => exact hall u hm
      have hv0 : v.shape = u0.shape := by
        cases List.mem_cons.mp hv with
        | inl he => rw [he]
        | inr hm => exact hall v hm
      exact hne (hu0.trans hv0.symm)
    · push_neg at hall
      exact hall
  · rintro ⟨u, hu, hne⟩
    exact ⟨u, List.mem_cons_of_mem _ hu, u0, List.mem_cons_self _ _, hne⟩

theorem is_adaptive_iff (rs : List Result) (f : String) :
    is_adaptive rs f = true ↔
      ∃ u ∈ validUs rs f, ∃ v ∈ validUs rs f, u.shape ≠ v.shape := by
  induction rs with
  | nil => simp [is_adaptive, firstValidIdx, validUs_nil]
  | cons r rest ih =>
      cases hv : (getU r f).allNaN with
      | false =>
          have hidx : firstValidIdx (r :: rest) f = 0 := by
            unfold firstValidIdx
            rw [List.findIdx_cons]
            simp [hv]
          rw [validUs_cons_valid hv rest]
          unfold is_adaptive
          rw [hidx, List.drop_zero]
          show adaptiveScan f (getU r f) (r :: rest) = true ↔ _
          rw [adaptiveScan_cons_valid_eq hv rfl rest,
            adaptiveScan_iff f rest (getU r f)]
          exact (exists_pair_ne_iff _ _).symm
      | true =>
          have hidx : firstValidIdx (r :: rest) f = firstValidIdx rest f + 1 := by
            unfold firstValidIdx
            rw [List.findIdx_cons]
            simp [hv]
          rw [validUs_cons_invalid hv rest, ← ih]
          unfold is_adaptive
          rw [hidx, List.drop_succ_cons]

/-! ## `validUs` and `is_adaptive` are invariant under regularization -/

theorem getU_comp (r : Result) (f : String) :
    getU r f = (getEntry r f).comp Comp.U := rfl

theorem getU_map_reg_allNaN (c : Comp) (sh : Option (List Nat))
    (g f : String) (r : Result) :
    (getU (regularizeResult c sh g r) f).allNaN = (getU r f).allNaN := by
  rw [getU_comp, getU_comp]
  unfold getEntry
  rw [lookup_regularizeResult]
  by_cases hfg : f = g
  · subst hfg
    rw [if_pos rfl]
    cases List.lookup f r with
    | none => rfl
    | some e =>
        show ((regularizeEntry c sh e).comp Comp.U).allNaN = (e.comp Comp.U).allNaN
        cases c with
        | U => rw [regularizeEntry_comp, arrReg_allNaN]
        | t => rw [regularizeEntry_comp_other sh e (by intro h; cases h)]
  · rw [if_neg hfg]

theorem getU_map_reg_valid (c : Comp) (sh : Option (List Nat))
    (g f : String) (r : Result) (h : (getU r f).allNaN = false) :
    getU (regularizeResult c sh g r) f = getU r f := by
  rw [getU_comp, getU_comp]
  unfold getEntry
  rw [lookup_regularizeResult]
  by_cases hfg : f = g
  · rw [if_pos hfg]
    subst hfg
    cases hl : List.lookup f r with
    | none => rfl
    | some e =>
        show ((regularizeEntry c sh e).comp Comp.U) = _
        cases c with
        | U =>
            rw [regularizeEntry_comp]
            have hval : (e.comp Comp.U).allNaN = false := by
              rw [getU_comp] at h
              unfold getEntry at h
              rw [hl] at h
              exact h
            rw [arrReg_valid _ _ hval]
            rfl
        | t => rw [regularizeEntry_comp_other sh e (by intro hc; cases hc)]; rfl
  · rw [if_neg hfg]

theorem validUs_map_reg (c : Comp) (sh : Option (List Nat)) (g f : String)
    (rs : List Result) :
    validUs (rs.map (regularizeResult c sh g)) f = validUs rs f := by
  induction rs with
  | nil => rfl
  | cons r rest ih =>
      rw [List.map_cons]
      cases hv : (getU r f).allNaN with
      | false =>
          have hv' : (getU (regularizeResult c sh g r) f).allNaN = false := by
            rw [getU_map_reg_allNaN, hv]
          rw [validUs_cons_valid hv' _, validUs_cons_valid hv _, ih,
            getU_map_reg_valid c sh g f r hv]
      | true =>
          have hv' : (getU (regularizeResult c sh g r) f).allNaN = true := by
            rw [getU_map_reg_allNaN, hv]
          rw [validUs_cons_invalid hv' _, validUs_cons_invalid hv _, ih]

theorem validUs_foldl_regStep (c : Comp) (f : String) :
    ∀ (fs : List String) (st : Option (List Nat) × List Result),
      validUs ((fs.foldl (regStep c) st).2) f = validUs st.2 f
  | [], _ => rfl
  | g :: fs, st => by
      rw [List.foldl_cons, validUs_foldl_regStep c f fs]
      exact validUs_map_reg c _ g f st.2

theorem validUs_regularizeComp (c : Comp) (f : String) (rs : List Result) :
    validUs (regularizeComp c rs) f = validUs rs f := by
  cases rs with
  | nil => rfl
  | cons r rest => exact validUs_foldl_regStep c f r.keys (none, r :: rest)

theorem validUs_regularize_nan (f : String) (rs : List Result) :
    validUs (regularize_nan_results rs) f = validUs rs f := by
  unfold regularize_nan_results
  rw [validUs_regularizeComp, validUs_regularizeComp]

theorem is_adaptive_regularize_nan (rs : List Result) (f : String) :
    is_adaptive (regularize_nan_results rs) f = is_adaptive rs f := by
  have h1 := is_adaptive_iff (regularize_nan_results rs) f
  have h2 := is_adaptive_iff rs f
  rw [validUs_regularize_nan] at h1
  cases hb : is_adaptive rs f with
  | true => exact h1.mpr (h2.mp hb)
  | false =>
      cases hb2 : is_adaptive (regularize_nan_results rs) f with
      | false => rfl
      | true => exact absurd (h2.mpr (h1.mp hb2)) (by rw [hb]; intro h; cases h)

/-! ## `np.argmax` and `apply_interpolation` support -/

theorem le_maxL : ∀ (l : List Nat), ∀ x ∈ l, x ≤ maxL l
  | [] => by intro x hx; exact absurd hx (List.not_mem_nil x)
  | a :: l => by
      intro x hx
      unfold maxL
      rw [List.foldr_cons]
      cases List.mem_cons.mp hx with
      | inl he => rw [he]; exact le_max_left _ _
      | inr hm => exact le_trans (le_maxL l x hm) (le_max_right _ _)

theorem maxL_mem : ∀ (l : List Nat), l ≠ [] → maxL l ∈ l
  | [], h => absurd rfl h
  | a :: l, _ => by
      show maxL (a :: l) ∈ a :: l
      unfold maxL
      rw [List.foldr_cons]
      by_cases h : (l.foldr max 0) ≤ a
      · rw [max_eq_left h]
        exact List.mem_cons_self a l
      · rw [max_eq_right (le_of_not_le h)]
        cases hl : l with
        | nil =>
            rw [hl] at h
            exact absurd (Nat.zero_le a) h
        | cons b l2 =>
            rw [← hl]
            exact List.mem_cons_of_mem a (maxL_mem l (by rw [hl]; exact List.cons_ne_nil b l2))

theorem getD_lt_indexOf_ne {a d : Nat} :
    ∀ (l : List Nat) (j : Nat), j < l.indexOf a → l.getD j d ≠ a
  | [], j, hj => by simp [List.indexOf] at hj
  | b :: l, j, hj => by
      by_cases hba : b = a
      · rw [List.indexOf_cons_eq l hba] at hj
        exact absurd hj (Nat.not_lt_zero j)
      · rw [List.indexOf_cons_ne l hba] at hj
        cases j with
        | zero => simpa using hba
        | succ j =>
            rw [List.getD_cons_succ]
            exact getD_lt_indexOf_ne l j (Nat.lt_of_succ_lt_succ hj)

theorem npArgmax_lt (l : List Nat) (h : l ≠ []) : npArgmax l < l.length :=
  List.indexOf_lt_length.mpr (maxL_mem l h)

theorem getD_npArgmax (l : List Nat) (h : l ≠ []) (d : Nat) :
    l.getD (npArgmax l) d = maxL l := by
  have hlt : npArgmax l < l.length := npArgmax_lt l h
  rw [List.getD_eq_get l d hlt]
  exact List.indexOf_get hlt

theorem getD_before_npArgmax (l : List Nat) (j : Nat) (d : Nat)
    (hj : j < npArgmax l) : l.getD j d ≠ maxL l :=
  getD_lt_indexOf_ne l j hj

theorem getD_map_npLen :
    ∀ (ts : List NDArray) (j : Nat), j < ts.length →
      (ts.map npLen).getD j 0 = npLen (ts.getD j emptyArr)
  | [], j, hj => absurd hj (Nat.not_lt_zero j)
  | a :: ts, 0, _ => rfl
  | a :: ts, j + 1, hj => by
      rw [List.map_cons, List.getD_cons_succ, List.getD_cons_succ]
      exact getD_map_npLen ts j (Nat.lt_of_succ_lt_succ hj)

/-! ## Scheduler support -/

theorem filterMap_eq_map_of {α β : Type} {g : α → Option β} {h : α → β} :
    ∀ (l : List α), (∀ a ∈ l, g a = some (h a)) → l.filterMap g = l.map h
  | [], _ => rfl
  | a :: l, hl => by
      rw [List.filterMap_cons, hl a (List.mem_cons_self a l), List.map_cons,
        filterMap_eq_map_of l (fun x hx => hl x (List.mem_cons_of_mem a hx))]

theorem lookup_map_pair {β : Type} {g : Nat → β} :
    ∀ (l : List Nat) (j : Nat), j ∈ l →
      List.lookup j (l.map (fun i => (i, g i))) = some (g j)
  | [], j, hj => absurd hj (List.not_mem_nil j)
  | i :: l, j, hj => by
      rw [List.map_cons]
      by_cases hji : j = i
      · subst hji
        simp [List.lookup]
      · have hb : (j == i) = false := by simp [hji]
        have hmem : j ∈ l := by
          cases List.mem_cons.mp hj with
          | inl he => exact absurd he hji
          | inr hm => exact hm
        simp only [List.lookup, hb]
        exact lookup_map_pair l j hmem

theorem range_map_getD {α : Type} (d : α) :
    ∀ (l : List α), (List.range l.length).map (fun j => l.getD j d) = l
  | [] => rfl
  | a :: l => by
      rw [List.length_cons, List.range_succ_eq_map, List.map_cons, List.map_map]
      show a :: (List.range l.length).map ((fun j => (a :: l).getD j d) ∘ Nat.succ) = a :: l
      have : ((fun j => (a :: l).getD j d) ∘ Nat.succ) = fun j => l.getD j d := by
        funext j
        simp [Function.comp, List.getD_cons_succ]
      rw [this, range_map_getD d l]

theorem poolIMap_perm {α β : Type} (f : α → β) (tasks : List α)
    (completion : List Nat)
    (hp : completion.Perm (List.range tasks.length)) :
    poolIMap f tasks completion = tasks.map f := by
  cases tasks with
  | nil => rfl
  | cons a as =>
      set tasks := a :: as with htasks
      have hmemlt : ∀ i ∈ completion, i < tasks.length := by
        intro i hi
        exact List.mem_range.mp (hp.mem_iff.mp hi)
      have hcompleted : completion.filterMap (fun i =>
          (tasks.get? i).map (fun x => (i, f x))) =
          completion.map (fun i => (i, f (tasks.getD i a))) := by
        apply filterMap_eq_map_of
        intro i hi
        have hlt : i < tasks.length := hmemlt i hi
        rw [List.get?_eq_get hlt, List.getD_eq_get tasks a hlt]
        rfl
      show (List.range tasks.length).filterMap _ = _
      rw [hcompleted]
      have houter : (List.range tasks.length).filterMap (fun j =>
          List.lookup j (completion.map (fun i => (i, f (tasks.getD i a))))) =
          (List.range tasks.length).map (fun j => f (tasks.getD j a)) := by
        apply filterMap_eq_map_of
        intro j hj
        exact lookup_map_pair completion j (hp.mem_iff.mpr hj)
      rw [houter]
      have : (fun j => f (tasks.getD j a)) = f ∘ (fun j => tasks.getD j a) := rfl
      rw [this, ← List.map_map, range_map_getD a tasks]

/-! ## `entriesOfC` through regularization -/

theorem entriesOfC_eq_compOpt (rs : List Result) (f : String) (c : Comp) :
    entriesOfC rs f c = (compOpt rs f c).filterMap id := by
  unfold entriesOfC compOpt
  rw [List.filterMap_map]
  rfl

theorem filterMap_optionMap (g : NDArray → NDArray) :
    ∀ (l : List (Option NDArray)),
      (l.map (Option.map g)).filterMap id = (l.filterMap id).map g
  | [] => rfl
  | none :: l => by
      rw [List.map_cons, List.filterMap_cons, List.filterMap_cons]
      show (l.map (Option.map g)).filterMap id = (l.filterMap id).map g
      exact filterMap_optionMap g l
  | some a :: l => by
      rw [List.map_cons, List.filterMap_cons, List.filterMap_cons]
      show ((l.map (Option.map g)).filterMap id).cons (g a) = _
      rw [filterMap_optionMap g l]
      rfl

theorem entriesOfC_regularize_nan (rs : List Result) (f : String) (c : Comp)
    (hnd : (headKeys rs).Nodup) (hf : f ∈ headKeys rs) :
    entriesOfC (regularize_nan_results rs) f c =
      (entriesOfC rs f c).map (arrReg (shAt rs c f)) := by
  rw [entriesOfC_eq_compOpt, compOpt_regularize_nan rs f c hnd hf,
    filterMap_optionMap, ← entriesOfC_eq_compOpt]

theorem shapeProbe_some (c : Comp) (e : Entry) :
    shapeProbe c (some e) =
      if (e.comp c).allNaN = true then none else some (e.comp c).shape := rfl

theorem findShape_none_iff (rs : List Result) (f : String) (c : Comp) :
    findShape rs f c = none ↔ ∀ a ∈ entriesOfC rs f c, a.allNaN = true := by
  unfold findShape
  rw [List.findSome?_eq_none]
  constructor
  · intro h a ha
    rw [entriesOfC_eq_compOpt] at ha
    obtain ⟨o, ho, hoa⟩ := List.mem_filterMap.mp ha
    obtain ⟨r, hr, hor⟩ := List.mem_map.mp ho
    have hp := h r hr
    rw [← hor] at hoa
    cases hl : List.lookup f r with
    | none => rw [hl] at hoa; cases hoa
    | some e =>
        rw [hl] at hoa hp
        have he : a = e.comp c := by
          simp only [Option.map_some', id_eq, Option.some.injEq] at hoa
          exact hoa.symm
        rw [shapeProbe_some] at hp
        by_cases hv : (e.comp c).allNaN = true
        · rw [he]; exact hv
        · rw [if_neg hv] at hp
          cases hp
  · intro h r hr
    cases hl : List.lookup f r with
    | none => rfl
    | some e =>
        have hmem : e.comp c ∈ entriesOfC rs f c := by
          rw [entriesOfC_eq_compOpt]
          refine List.mem_filterMap.mpr ⟨some (e.comp c), ?_, rfl⟩
          exact List.mem_map.mpr ⟨r, hr, by rw [hl]; rfl⟩
        rw [shapeProbe_some, h (e.comp c) hmem, if_pos rfl]

theorem shAt_of_findShape_some {rs : List Result} {f : String} {c : Comp}
    {s : List Nat} (h : findShape rs f c = some s) : shAt rs c f = some s := by
  unfold shAt
  rw [staleUpto_append_single, h]

/-! ## Error propagation through `results_to_data` -/

theorem collectRuns_error {cfg : UQConfig} {f : String} {E : PyError} :
    ∀ (l : List Result),
      (∀ r ∈ l, (∃ v, runCandidate cfg f r = Except.ok v) ∨
        runCandidate cfg f r = Except.error E) →
      (∃ r ∈ l, runCandidate cfg f r = Except.error E) →
      collectRuns cfg f l = Except.error E
  | [], _, hex => by
      obtain ⟨r, hr, _⟩ := hex
      exact absurd hr (List.not_mem_nil r)
  | r :: rest, hall, hex => by
      cases hall r (List.mem_cons_self r rest) with
      | inr herr =>
          show (do
            let p ← runCandidate cfg f r
            let ps ← collectRuns cfg f rest
            Except.ok (p :: ps)) = Except.error E
          rw [herr]
          rfl
      | inl hok =>
          obtain ⟨v, hv⟩ := hok
          have hexr : ∃ x ∈ rest, runCandidate cfg f x = Except.error E := by
            obtain ⟨x, hx, hxe⟩ := hex
            cases List.mem_cons.mp hx with
            | inl he =>
                rw [he] at hxe
                rw [hv] at hxe
                exact absurd hxe (by intro h; cases h)
            | inr hm => exact ⟨x, hm, hxe⟩
          have hrest := collectRuns_error rest
            (fun x hx => hall x (List.mem_cons_of_mem r hx)) hexr
          show (do
            let p ← runCandidate cfg f r
            let ps ← collectRuns cfg f rest
            Except.ok (p :: ps)) = Except.error E
          rw [hv, hrest]
          rfl

theorem storeAll_error {cfg : UQConfig} {res : List Result} {r0 : Result}
    {E : PyError} {f : String} (post : List String) :
    ∀ (pre : List String),
      (∀ g ∈ pre, ∃ v, storeFeature cfg res r0 g = Except.ok v) →
      storeFeature cfg res r0 f = Except.error E →
      storeAll cfg res r0 (pre ++ f :: post) = Except.error E
  | [], _, hf => by
      show (do
        let p ← storeFeature cfg res r0 f
        let ds ← storeAll cfg res r0 post
        Except.ok ((f, p) :: ds)) = Except.error E
      rw [hf]
      rfl
  | g :: pre, hpre, hf => by
      obtain ⟨v, hv⟩ := hpre g (List.mem_cons_self g pre)
      have hrest := storeAll_error post pre
        (fun x hx => hpre x (List.mem_cons_of_mem g hx)) hf
      show (do
        let p ← storeFeature cfg res r0 g
        let ds ← storeAll cfg res r0 (pre ++ f :: post)
        Except.ok ((g, p) :: ds)) = Except.error E
      rw [hv, hrest]
      rfl

theorem find?_append_first {p : String → Bool} {f : String} (post : List String) :
    ∀ (pre : List String), (∀ g ∈ pre, p g = false) → p f = true →
      (pre ++ f :: post).find? p = some f
  | [], _, hf => by
      rw [List.nil_append, List.find?_cons, hf]
  | g :: pre, hpre, hf => by
      rw [List.cons_append, List.find?_cons, hpre g (List.mem_cons_self g pre)]
      exact find?_append_first post pre
        (fun x hx => hpre x (List.mem_cons_of_mem g hx)) hf

/-! ## Concrete ensembles used by witnesses and counterexamples -/

def arr1 : NDArray := ⟨[1], [Scalar.val 1]⟩

def arr2 : NDArray := ⟨[2], [Scalar.val 1, Scalar.val 2]⟩

def arr2b : NDArray := ⟨[2], [Scalar.val 3, Scalar.val 4]⟩

def arr2d : NDArray := ⟨[2, 2], [Scalar.val 1, Scalar.val 2, Scalar.val 3, Scalar.val 4]⟩

def nan0 : NDArray := ⟨[], [Scalar.nan]⟩

def nan3nd : NDArray := ⟨[3], [Scalar.nan, Scalar.nan, Scalar.nan]⟩

def idInterp : Interp := fun s => s

/-- One run; feature `"A"` valid with shape `[1]`, feature `"B"` an
all-`nan` scalar for both components. -/
def ceC1 : List Result := [[("A", ⟨arr1, arr1, none⟩), ("B", ⟨nan0, nan0, none⟩)]]

/-- Two runs whose outputs for feature `"A"` are valid with differing
shapes `[1]` and `[2]` (an adaptive feature). -/
def ceC2 : List Result := [[("A", ⟨arr1, arr1, none⟩)], [("A", ⟨arr1, arr2, none⟩)]]

/-- The spec's "feature C" example, reduced: one all-invalid run and one
valid run of shape `[2]`. -/
def wC2 : List Result := [[("C", ⟨arr1, nan3nd, none⟩)], [("C", ⟨arr1, arr2, none⟩)]]

/-- One run with a single valid output (so fewer than two valid outputs). -/
def w5a : List Result := [[("A", ⟨arr1, arr1, none⟩)]]

/-! ## Claims C1, C2, C5, C6 -/

/-- C1, counterexample: the claim says that when every entry of feature
`"B"` (component `"U"`) is entirely NaN, `regularize_nan_results` leaves
those entries unchanged.  On `ceC1` the reference shape `[1]` found for the
earlier feature `"A"` leaks into `"B"`'s processing (the `shape` variable is
initialized once, outside the feature loop), so `"B"`'s all-NaN scalar is
rewritten to a NaN array of shape `[1]`: the entries change. -/
theorem claim_C1_counterexample :
    (∀ a ∈ entriesOfC ceC1 "B" Comp.U, a.allNaN = true) ∧
      entriesOfC (regularize_nan_results ceC1) "B" Comp.U ≠
        entriesOfC ceC1 "B" Comp.U := by
  constructor
  · decide
  · decide

/-- C1, amended: for a feature `f` whose entries for component `c` are all
entirely NaN, `regularize_nan_results` does not leave them unchanged;
instead every such entry ends as an entirely-NaN array whose shape is the
stale reference shape last found for an earlier feature in key order (a 0-d
array when no earlier feature supplied one, since `np.full(None, nan)` is a
0-d array). -/
theorem claim_C1_amended_nan_entries_get_stale_shape (results : List Result)
    (f : String) (c : Comp) (hnd : (headKeys results).Nodup)
    (hf : f ∈ headKeys results)
    (hinv : ∀ a ∈ entriesOfC results f c, a.allNaN = true) :
    ∀ a ∈ entriesOfC (regularize_nan_results results) f c,
      a.allNaN = true ∧
        a.shape = (match shAt results c f with
                   | some s => s
                   | none => ([] : List Nat)) := by
  intro a ha
  rw [entriesOfC_regularize_nan results f c hnd hf] at ha
  obtain ⟨b, hb, hba⟩ := List.mem_map.mp ha
  have hbnan : b.allNaN = true := hinv b hb
  subst hba
  by_cases hcond : b.allNaN = true ∧ some b.shape ≠ shAt results c f
  · have harr : arrReg (shAt results c f) b = npFull (shAt results c f) := by
      unfold arrReg
      rw [if_pos hcond]
    rw [harr]
    refine ⟨npFull_allNaN _, ?_⟩
    cases hsh : shAt results c f with
    | none => rfl
    | some s => rfl
  · have heq : some b.shape = shAt results c f := by
      by_contra hne
      exact hcond ⟨hbnan, hne⟩
    have harr : arrReg (shAt results c f) b = b := by
      unfold arrReg
      rw [if_neg hcond]
    rw [harr]
    refine ⟨hbnan, ?_⟩
    rw [← heq]

/-- C1, witness for the amended claim at `ceC1`, feature `"B"`, component
`"U"`: the stale reference shape is `[1]` (inherited from feature `"A"`). -/
theorem claim_C1_amended_witness :
    (headKeys ceC1).Nodup ∧ ("B" ∈ headKeys ceC1) ∧
      (∀ a ∈ entriesOfC ceC1 "B" Comp.U, a.allNaN = true) ∧
      ∀ a ∈ entriesOfC (regularize_nan_results ceC1) "B" Comp.U,
        a.allNaN = true ∧
          a.shape = (match shAt ceC1 Comp.U "B" with
                     | some s => s
                     | none => ([] : List Nat)) :=
  ⟨by decide, by decide, by decide,
    claim_C1_amended_nan_entries_get_stale_shape ceC1 "B" Comp.U
      (by decide) (by decide) (by decide)⟩

/-- C2, counterexample: the claim says that after `regularize_nan_results`
every feature/component either has all entries of one shape or no valid
entry.  On `ceC2` feature `"A"` keeps two valid outputs of shapes `[1]` and
`[2]` — regularization never touches valid entries, so neither disjunct
holds (this is exactly the adaptive case handled later by interpolation). -/
theorem claim_C2_counterexample :
    ¬((∀ a ∈ entriesOfC (regularize_nan_results ceC2) "A" Comp.U,
        ∀ b ∈ entriesOfC (regularize_nan_results ceC2) "A" Comp.U,
          a.shape = b.shape) ∨
      (∀ a ∈ entriesOfC (regularize_nan_results ceC2) "A" Comp.U,
        a.allNaN = true)) := by
  decide

/-- C2, amended: after `regularize_nan_results`, for every feature and each
component independently, either no valid (not entirely NaN) entry exists,
or every entirely-NaN entry has the shape of the first valid entry (valid
entries of differing shapes may survive; they are the declared-adaptive
case). -/
theorem claim_C2_amended_nan_entries_match_first_valid (results : List Result)
    (f : String) (c : Comp) (hnd : (headKeys results).Nodup)
    (hf : f ∈ headKeys results) :
    (∀ a ∈ entriesOfC results f c, a.allNaN = true) ∨
      (∃ s, findShape results f c = some s ∧
        ∀ a ∈ entriesOfC (regularize_nan_results results) f c,
          a.allNaN = true → a.shape = s) := by
  cases hfs : findShape results f c with
  | none => exact Or.inl ((findShape_none_iff results f c).mp hfs)
  | some s =>
      refine Or.inr ⟨s, rfl, ?_⟩
      intro a ha hanan
      rw [entriesOfC_regularize_nan results f c hnd hf] at ha
      obtain ⟨b, hb, hba⟩ := List.mem_map.mp ha
      have hsh : shAt results c f = some s := shAt_of_findShape_some hfs
      rw [hsh] at hba
      subst hba
      by_cases hcond : b.allNaN = true ∧ some b.shape ≠ some s
      · have harr : arrReg (some s) b = npFull (some s) := by
          unfold arrReg
          rw [if_pos hcond]
        rw [harr]
        rfl
      · have harr : arrReg (some s) b = b := by
          unfold arrReg
          rw [if_neg hcond]
        rw [harr] at hanan ⊢
        by_contra hne
        exact hcond ⟨hanan, by intro hss; exact hne (Option.some.injEq _ _ ▸ hss)⟩

/-- C2, witness for the amended claim at `wC2` (the spec's "feature C"
example): the first valid output has shape `[2]`, and the all-NaN entry is
reshaped to `[2]`. -/
theorem claim_C2_amended_witness :
    (headKeys wC2).Nodup ∧ ("C" ∈ headKeys wC2) ∧
      ((∀ a ∈ entriesOfC wC2 "C" Comp.U, a.allNaN = true) ∨
        (∃ s, findShape wC2 "C" Comp.U = some s ∧
          ∀ a ∈ entriesOfC (regularize_nan_results wC2) "C" Comp.U,
            a.allNaN = true → a.shape = s)) :=
  ⟨by decide, by decide,
    claim_C2_amended_nan_entries_match_first_valid wC2 "C" Comp.U
      (by decide) (by decide)⟩

/-- C5: `is_adaptive` returns false when fewer than two valid (not entirely
NaN) outputs exist or when all valid outputs share one shape, and returns
true when two valid outputs of differing shapes exist. -/
theorem claim_C5_is_adaptive_characterization (rs : List Result) (f : String) :
    ((validUs rs f).length < 2 → is_adaptive rs f = false) ∧
    ((∀ u ∈ validUs rs f, ∀ v ∈ validUs rs f, u.shape = v.shape) →
      is_adaptive rs f = false) ∧
    ((∃ u ∈ validUs rs f, ∃ v ∈ validUs rs f, u.shape ≠ v.shape) →
      is_adaptive rs f = true) := by
  have hiff := is_adaptive_iff rs f
  have hsame : (∀ u ∈ validUs rs f, ∀ v ∈ validUs rs f, u.shape = v.shape) →
      is_adaptive rs f = false := by
    intro hall
    cases hb : is_adaptive rs f with
    | false => rfl
    | true =>
        obtain ⟨u, hu, v, hv, hne⟩ := hiff.mp hb
        exact absurd (hall u hu v hv) hne
  refine ⟨?_, hsame, fun h => hiff.mpr h⟩
  intro hlen
  apply hsame
  intro u hu v hv
  cases hl : validUs rs f with
  | nil =>
      rw [hl] at hu
      exact absurd hu (List.not_mem_nil u)
  | cons a l =>
      cases l with
      | nil =>
          rw [hl] at hu hv
          rw [List.mem_singleton.mp hu, List.mem_singleton.mp hv]
      | cons b l2 =>
          rw [hl] at hlen
          simp only [List.length_cons] at hlen
          omega

/-- C5, witness: on `w5a` a single valid output gives false; on `ceC2` two
valid outputs of shapes `[1]` and `[2]` give true. -/
theorem claim_C5_witness :
    is_adaptive w5a "A" = false ∧ is_adaptive ceC2 "A" = true :=
  ⟨(claim_C5_is_adaptive_characterization w5a "A").1 (by decide),
    (claim_C5_is_adaptive_characterization ceC2 "A").2.2 (by decide)⟩

/-- C6: `regularize_nan_results` is idempotent — applying it twice yields,
for every feature and for both the `"t"` and `"U"` components, exactly the
same per-run entries (values, hence shapes) as applying it once. -/
theorem claim_C6_regularize_idempotent (results : List Result)
    (hnd : (headKeys results).Nodup) :
    ∀ (f : String) (c : Comp),
      compOpt (regularize_nan_results (regularize_nan_results results)) f c =
        compOpt (regularize_nan_results results) f c := by
  intro f c
  by_cases hf : f ∈ headKeys results
  · have hnd1 : (headKeys (regularize_nan_results results)).Nodup := by
      rw [headKeys_regularize_nan]
      exact hnd
    have hf1 : f ∈ headKeys (regularize_nan_results results) := by
      rw [headKeys_regularize_nan]
      exact hf
    rw [compOpt_regularize_nan (regularize_nan_results results) f c hnd1 hf1]
    have hsh : shAt (regularize_nan_results results) c f = shAt results c f :=
      shAt_congr c f (headKeys_regularize_nan results)
        (fun g => findShape_regularize_nan c g results)
    rw [hsh, compOpt_regularize_nan results f c hnd hf, List.map_map]
    apply List.map_congr_left
    intro o _
    show Option.map (arrReg (shAt results c f))
        (Option.map (arrReg (shAt results c f)) o) = _
    cases o with
    | none => rfl
    | some a =>
        simp only [Option.map_some', Option.some.injEq]
        exact arrReg_idem _ a
  · have hf1 : f ∉ headKeys (regularize_nan_results results) := by
      rw [headKeys_regularize_nan]
      exact hf
    rw [compOpt_regularize_nan_not_mem hf1]

/-- C6, witness at `ceC1` (whose regularization does rewrite an entry). -/
theorem claim_C6_witness :
    (headKeys ceC1).Nodup ∧
      compOpt (regularize_nan_results (regularize_nan_results ceC1)) "B" Comp.U =
        compOpt (regularize_nan_results ceC1) "B" Comp.U :=
  ⟨by decide, claim_C6_regularize_idempotent ceC1 (by decide) "B" Comp.U⟩

/-! ## Claims C4 and C10 -/

/-- C4: `apply_interpolation` returns as common time axis a candidate with
the maximum number of points among the candidates, and every row of the
interpolated-results array has that axis's shape, hence its length.  (The
dimension hypothesis reflects that Python `len` is only defined on arrays
of dimension at least one.) -/
theorem claim_C4_apply_interpolation (ts : List NDArray)
    (interps : List Interp) (hne : ts ≠ [])
    (hdim : ∀ u ∈ ts, 1 ≤ u.ndim) :
    (apply_interpolation ts interps).1 ∈ ts ∧
    (∀ u ∈ ts, npLen u ≤ npLen (apply_interpolation ts interps).1) ∧
    (apply_interpolation ts interps).2.length = interps.length ∧
    (∀ row ∈ (apply_interpolation ts interps).2,
      row.shape = (apply_interpolation ts interps).1.shape ∧
      npLen row = npLen (apply_interpolation ts interps).1) := by
  have hlens : ts.map npLen ≠ [] := by
    intro h
    exact hne (List.map_eq_nil_iff.mp h)
  have hlenlen : (ts.map npLen).length = ts.length := List.length_map ts npLen
  have hidx : npArgmax (ts.map npLen) < ts.length := by
    rw [← hlenlen]
    exact npArgmax_lt _ hlens
  have hfst : (apply_interpolation ts interps).1 =
      ts.getD (npArgmax (ts.map npLen)) emptyArr := rfl
  have hmem : ts.getD (npArgmax (ts.map npLen)) emptyArr ∈ ts := by
    rw [List.getD_eq_get ts emptyArr hidx]
    exact List.get_mem ts _ _
  have hmax : npLen (ts.getD (npArgmax (ts.map npLen)) emptyArr) =
      maxL (ts.map npLen) := by
    rw [← getD_map_npLen ts _ hidx]
    exact getD_npArgmax _ hlens 0
  refine ⟨hfst ▸ hmem, ?_, ?_, ?_⟩
  · intro u hu
    rw [hfst, hmax]
    exact le_maxL _ _ (List.mem_map_of_mem npLen hu)
  · exact List.length_map _ _
  · intro row hrow
    have hrow2 : row ∈ interps.map (fun inter =>
        (⟨(apply_interpolation ts interps).1.shape,
          (apply_interpolation ts interps).1.data.map inter⟩ : NDArray)) := hrow
    obtain ⟨inter, _, hr⟩ := List.mem_map.mp hrow2
    rw [← hr]
    exact ⟨rfl, rfl⟩

/-- C4, witness: the common axis taken from candidates of lengths 1 and 2
is the 2-point candidate. -/
theorem claim_C4_witness :
    ([arr1, arr2] ≠ ([] : List NDArray)) ∧
      (apply_interpolation [arr1, arr2] [idInterp]).1 ∈ [arr1, arr2] ∧
      ∀ u ∈ [arr1, arr2],
        npLen u ≤ npLen (apply_interpolation [arr1, arr2] [idInterp]).1 :=
  ⟨by decide,
    (claim_C4_apply_interpolation [arr1, arr2] [idInterp]
      (by decide) (by decide)).1,
    (claim_C4_apply_interpolation [arr1, arr2] [idInterp]
      (by decide) (by decide)).2.1⟩

/-- C10: when several candidates share the maximal point count,
`apply_interpolation` returns the first such candidate in input order: its
index is `np.argmax` of the lengths, which is strictly below every earlier
index's length. -/
theorem claim_C10_first_of_ties (ts : List NDArray) (interps : List Interp)
    (hne : ts ≠ []) (hdim : ∀ u ∈ ts, 1 ≤ u.ndim) :
    npArgmax (ts.map npLen) < ts.length ∧
    (apply_interpolation ts interps).1 =
      ts.getD (npArgmax (ts.map npLen)) emptyArr ∧
    ∀ j, j < npArgmax (ts.map npLen) →
      npLen (ts.getD j emptyArr) <
        npLen (ts.getD (npArgmax (ts.map npLen)) emptyArr) := by
  have hlens : ts.map npLen ≠ [] := by
    intro h
    exact hne (List.map_eq_nil_iff.mp h)
  have hlenlen : (ts.map npLen).length = ts.length := List.length_map ts npLen
  have hidx : npArgmax (ts.map npLen) < ts.length := by
    rw [← hlenlen]
    exact npArgmax_lt _ hlens
  have hmax : npLen (ts.getD (npArgmax (ts.map npLen)) emptyArr) =
      maxL (ts.map npLen) := by
    rw [← getD_map_npLen ts _ hidx]
    exact getD_npArgmax _ hlens 0
  refine ⟨hidx, rfl, ?_⟩
  intro j hj
  have hjlen : j < ts.length := lt_trans hj hidx
  have h1 : npLen (ts.getD j emptyArr) = (ts.map npLen).getD j 0 :=
    (getD_map_npLen ts j hjlen).symm
  have hne2 : (ts.map npLen).getD j 0 ≠ maxL (ts.map npLen) :=
    getD_before_npArgmax _ j 0 hj
  have hle : (ts.map npLen).getD j 0 ≤ maxL (ts.map npLen) := by
    apply le_maxL
    rw [List.getD_eq_get _ 0 (by rw [hlenlen]; exact hjlen)]
    exact List.get_mem _ _ _
  rw [h1, hmax]
  exact lt_of_le_of_ne hle hne2

/-- C10, witness: two candidates tie at 2 points; the first is chosen. -/
theorem claim_C10_witness :
    npArgmax ([arr2, arr2b].map npLen) = 0 ∧
      (apply_interpolation [arr2, arr2b] ([] : List Interp)).1 =
        [arr2, arr2b].getD (npArgmax ([arr2, arr2b].map npLen)) emptyArr :=
  ⟨by decide,
    (claim_C10_first_of_ties [arr2, arr2b] [] (by decide) (by decide)).2.1⟩

/-! ## Claim C9 -/

theorem getD_map_lt {α β : Type} (g : α → β) (dq : β) (da : α) :
    ∀ (l : List α) (i : Nat), i < l.length →
      (l.map g).getD i dq = g (l.getD i da)
  | [], i, hi => absurd hi (Nat.not_lt_zero i)
  | a :: l, 0, _ => rfl
  | a :: l, i + 1, hi => by
      rw [List.map_cons, List.getD_cons_succ, List.getD_cons_succ]
      exact getD_map_lt g dq da l i (Nat.lt_of_succ_lt_succ hi)

theorem range_getD (N i : Nat) (h : i < N) : (List.range N).getD i 0 = i := by
  rw [List.getD_eq_get _ 0 (by rw [List.length_range]; exact h)]
  exact List.get_range _ _

theorem npT_getD (nodes : List (List ℚ)) (i : Nat)
    (hi : i < (npT nodes).length) :
    (npT nodes).getD i [] = nodes.map (fun row => row.getD i 0) := by
  unfold npT at hi ⊢
  rw [List.length_map, List.length_range] at hi
  rw [getD_map_lt _ [] 0 _ i (by rw [List.length_range]; exact hi),
    range_getD _ i hi]

/-- C9: for any completion order of the pooled workers (any permutation of
the task indices), `evaluate_nodes` returns one run record per column of
the sample matrix, and the i-th record is the worker evaluator applied to
the parameter set built from the i-th column. -/
theorem claim_C9_evaluate_nodes_order {R : Type} (prun : ParamSet → R)
    (d : R) (defaults : List (String × ℚ)) (nodes : List (List ℚ))
    (uncertain : List String) (completion : List Nat)
    (hp : completion.Perm (List.range (npT nodes).length)) :
    evaluate_nodes prun defaults nodes uncertain completion =
      (create_model_parameters defaults nodes uncertain).map prun ∧
    (evaluate_nodes prun defaults nodes uncertain completion).length =
      (npT nodes).length ∧
    ∀ i, i < (npT nodes).length →
      (evaluate_nodes prun defaults nodes uncertain completion).getD i d =
        prun (buildParameterSet defaults uncertain
          (nodes.map (fun row => row.getD i 0))) := by
  have hlen : (create_model_parameters defaults nodes uncertain).length =
      (npT nodes).length := List.length_map _ _
  have hp2 : completion.Perm
      (List.range (create_model_parameters defaults nodes uncertain).length) := by
    rw [hlen]
    exact hp
  have h1 : evaluate_nodes prun defaults nodes uncertain completion =
      (create_model_parameters defaults nodes uncertain).map prun :=
    poolIMap_perm prun _ completion hp2
  refine ⟨h1, by rw [h1, List.length_map, hlen], ?_⟩
  intro i hi
  have hi2 : i < (create_model_parameters defaults nodes uncertain).length := by
    rw [hlen]
    exact hi
  rw [h1, getD_map_lt prun d [] _ i hi2]
  show prun ((create_model_parameters defaults nodes uncertain).getD i []) = _
  unfold create_model_parameters
  rw [getD_map_lt (buildParameterSet defaults uncertain) [] [] (npT nodes) i hi,
    npT_getD nodes i hi]

def w9nodes : List (List ℚ) := [[1, 2], [3, 4]]

def w9defaults : List (String × ℚ) := [("a", 0), ("c", 5)]

def w9unc : List String := ["a", "b"]

/-- C9, witness: two columns dispatched, workers completing in reversed
order; the record at index 1 is still the evaluation of column 1. -/
theorem claim_C9_witness :
    ([1, 0] : List Nat).Perm (List.range (npT w9nodes).length) ∧
      (evaluate_nodes (fun ps => ps) w9defaults w9nodes w9unc [1, 0]).getD 1 [] =
        buildParameterSet w9defaults w9unc
          (w9nodes.map (fun row => row.getD 1 0)) :=
  ⟨by decide,
    (claim_C9_evaluate_nodes_order (fun ps => ps) [] w9defaults w9nodes w9unc
      [1, 0] (by decide)).2.2 1 (by decide)⟩

/-! ## Claim C3 -/

/-- C3: when some feature of the ensemble has valid (not entirely NaN)
outputs of differing shapes across runs but is not declared adaptive
(neither the model with its adaptive flag set, nor listed in the features'
adaptive set), `results_to_data` raises a `ValueError` whose message names
that feature (the first such feature in key order). -/
theorem claim_C3_undeclared_adaptive_error (cfg : UQConfig) (r0 : Result)
    (rest : List Result) (f : String) (pre post : List String)
    (hsplit : r0.keys = pre ++ f :: post)
    (hpre : ∀ g ∈ pre,
      checkOffender cfg (regularize_nan_results (r0 :: rest)) g = false)
    (hdiff : ∃ u ∈ validUs (r0 :: rest) f, ∃ v ∈ validUs (r0 :: rest) f,
      u.shape ≠ v.shape)
    (hundecl1 : f = cfg.modelName → cfg.modelAdaptive = false)
    (hundecl2 : f ≠ cfg.modelName → f ∉ cfg.featuresAdaptive) :
    results_to_data cfg (r0 :: rest) =
      Except.error (PyError.valueError (adaptiveErrMsg f)) := by
  have hada : is_adaptive (regularize_nan_results (r0 :: rest)) f = true := by
    rw [is_adaptive_regularize_nan]
    exact (is_adaptive_iff _ f).mpr hdiff
  have hoff : checkOffender cfg (regularize_nan_results (r0 :: rest)) f = true := by
    unfold checkOffender
    rw [hada, Bool.true_and]
    apply decide_eq_true
    by_cases hm : f = cfg.modelName
    · exact Or.inl ⟨hm, hundecl1 hm⟩
    · exact Or.inr ⟨hm, hundecl2 hm⟩
  have hfind : (r0.keys).find?
      (checkOffender cfg (regularize_nan_results (r0 :: rest))) = some f := by
    rw [hsplit]
    exact find?_append_first post pre hpre hoff
  simp only [results_to_data]
  rw [hfind]

def cfgC3 : UQConfig := ⟨"m", false, [], ["x"], []⟩

def w3 : List Result :=
  [[("D", ⟨arr1, arr1, none⟩), ("m", ⟨arr2, arr2, none⟩)],
   [("D", ⟨arr2, arr2, none⟩), ("m", ⟨arr2, arr2b, none⟩)]]

/-- C3, witness: the spec's scenario — feature `"D"` has runs of 1 and 2
points, is not declared adaptive, and `run` fails with the configuration
error naming `"D"`. -/
theorem claim_C3_witness :
    (∃ u ∈ validUs w3 "D", ∃ v ∈ validUs w3 "D", u.shape ≠ v.shape) ∧
      results_to_data cfgC3 w3 =
        Except.error (PyError.valueError (adaptiveErrMsg "D")) :=
  ⟨by decide,
    claim_C3_undeclared_adaptive_error cfgC3
      [("D", ⟨arr1, arr1, none⟩), ("m", ⟨arr2, arr2, none⟩)]
      [[("D", ⟨arr2, arr2, none⟩), ("m", ⟨arr2, arr2b, none⟩)]]
      "D" [] ["m"] (by decide) (by decide) (by decide)
      (by decide) (by decide)⟩

/-! ## Claim C8 -/

/-- C8: a feature declared adaptive whose (regularized) output is 2-D or
higher makes `storeFeature` — and hence `results_to_data`, once control
reaches this feature — raise `NotImplementedError`; such outputs are never
silently stacked or approximated. -/
theorem claim_C8_no_2d_interpolation (cfg : UQConfig) (r0 : Result)
    (rest : List Result) (r0r : Result) (restr : List Result) (f : String)
    (pre post : List String) (e0 : Entry)
    (hres : regularize_nan_results (r0 :: rest) = r0r :: restr)
    (hcheck : (r0.keys).find?
      (checkOffender cfg (regularize_nan_results (r0 :: rest))) = none)
    (hsplit : r0.keys = pre ++ f :: post)
    (hpre : ∀ g ∈ pre, ∃ v, storeFeature cfg (r0r :: restr) r0r g = Except.ok v)
    (hdecl : declaredAdaptiveStore cfg f = true)
    (he0 : List.lookup f r0r = some e0)
    (hnd2 : 2 ≤ e0.U.ndim) :
    storeFeature cfg (r0r :: restr) r0r f =
      Except.error (PyError.notImplementedError (notImplMsg f)) ∧
    results_to_data cfg (r0 :: rest) =
      Except.error (PyError.notImplementedError (notImplMsg f)) := by
  have hstore : storeFeature cfg (r0r :: restr) r0r f =
      Except.error (PyError.notImplementedError (notImplMsg f)) := by
    unfold storeFeature
    rw [hdecl, if_pos rfl, he0]
    show (if e0.U.ndim ≥ 2 then
            Except.error (PyError.notImplementedError (notImplMsg f))
          else if e0.U.ndim = 1 then do
            let pairs ← collectRuns cfg f (r0r :: restr)
            Except.ok (apply_interpolation (pairs.map Prod.fst)
              (pairs.map Prod.snd))
          else do
            let us ← collectUs f (r0r :: restr)
            Except.ok (e0.t, us)) = _
    rw [if_pos hnd2]
  refine ⟨hstore, ?_⟩
  have hstoreAll : storeAll cfg (r0r :: restr) r0r r0.keys =
      Except.error (PyError.notImplementedError (notImplMsg f)) := by
    rw [hsplit]
    exact storeAll_error post pre hpre hstore
  simp only [results_to_data]
  rw [hcheck, hres]
  show (do
    let stored ← storeAll cfg (r0r :: restr) r0r r0.keys
    Except.ok
      { modelName := cfg.modelName,
        features := stored.map (fun p =>
          (p.1, { labels := labelsFor cfg p.1,
                  t := p.2.1, U := p.2.2 })) } : Except PyError UQData) = _
  rw [hstoreAll]
  rfl

def cfgC8 : UQConfig := ⟨"m", false, ["C2"], ["x"], []⟩

def w8r0 : Result :=
  [("C2", ⟨arr1, arr2d, some idInterp⟩), ("m", ⟨arr1, arr2, none⟩)]

def w8 : List Result := [w8r0]

/-- C8, witness: feature `"C2"` is declared adaptive with a 2-D output;
`results_to_data` fails with the unimplemented-feature error. -/
theorem claim_C8_witness :
    (2 ≤ arr2d.ndim) ∧
      results_to_data cfgC8 w8 =
        Except.error (PyError.notImplementedError (notImplMsg "C2")) :=
  ⟨by decide,
    (claim_C8_no_2d_interpolation cfgC8 w8r0 [] w8r0 [] "C2" [] ["m"]
      ⟨arr1, arr2d, some idInterp⟩ rfl (by decide) rfl
      (fun g hg => absurd hg (List.not_mem_nil g))
      (by decide) rfl (by decide)).2⟩

/-! ## Claim C7 -/

theorem exceptBind_ok {α β : Type} (a : α) (k : α → Except PyError β) :
    (do
      let x ← (Except.ok a : Except PyError α)
      k x) = k a := rfl

theorem exceptBind_error {α β : Type} (e : PyError)
    (k : α → Except PyError β) :
    (do
      let x ← (Except.error e : Except PyError α)
      k x) = Except.error e := rfl

/-- C7: for a declared-adaptive feature with 1-D output, the candidate time
axis collected for each run is the feature's own time axis when it is not
entirely NaN, otherwise the model's time axis when that one is not entirely
NaN; and when both are entirely NaN for some run, `results_to_data` fails
with the fatal no-usable-time-axis `ValueError`. -/
theorem claim_C7_time_axis_fallback (cfg : UQConfig) (r0 : Result)
    (rest : List Result) (r0r : Result) (restr : List Result) (f : String)
    (pre post : List String) (e0 : Entry)
    (hres : regularize_nan_results (r0 :: rest) = r0r :: restr)
    (hcheck : (r0.keys).find?
      (checkOffender cfg (regularize_nan_results (r0 :: rest))) = none)
    (hsplit : r0.keys = pre ++ f :: post)
    (hpre : ∀ g ∈ pre, ∃ v, storeFeature cfg (r0r :: restr) r0r g = Except.ok v)
    (hdecl : declaredAdaptiveStore cfg f = true)
    (he0 : List.lookup f r0r = some e0)
    (hU1 : e0.U.ndim = 1)
    (hok : ∀ r ∈ r0r :: restr, ∃ e me itp, List.lookup f r = some e ∧
      e.interpolation = some itp ∧ List.lookup cfg.modelName r = some me)
    (hbad : ∃ r ∈ r0r :: restr, ∃ e me, List.lookup f r = some e ∧
      List.lookup cfg.modelName r = some me ∧ e.t.allNaN = true ∧
      me.t.allNaN = true) :
    (∀ (r : Result) (e me : Entry) (itp : Interp),
      List.lookup f r = some e → e.interpolation = some itp →
      List.lookup cfg.modelName r = some me →
      (e.t.allNaN = false → runCandidate cfg f r = Except.ok (e.t, itp)) ∧
      (e.t.allNaN = true → me.t.allNaN = false →
        runCandidate cfg f r = Except.ok (me.t, itp)) ∧
      (e.t.allNaN = true → me.t.allNaN = true →
        runCandidate cfg f r =
          Except.error (PyError.valueError (neitherTMsg f)))) ∧
    results_to_data cfg (r0 :: rest) =
      Except.error (PyError.valueError (neitherTMsg f)) := by
  have hA : ∀ (r : Result) (e me : Entry) (itp : Interp),
      List.lookup f r = some e → e.interpolation = some itp →
      List.lookup cfg.modelName r = some me →
      (e.t.allNaN = false → runCandidate cfg f r = Except.ok (e.t, itp)) ∧
      (e.t.allNaN = true → me.t.allNaN = false →
        runCandidate cfg f r = Except.ok (me.t, itp)) ∧
      (e.t.allNaN = true → me.t.allNaN = true →
        runCandidate cfg f r =
          Except.error (PyError.valueError (neitherTMsg f))) := by
    intro r e me itp he hitp hme
    refine ⟨?_, ?_, ?_⟩
    · intro hv
      simp [runCandidate, he, hitp, hme, hv, exceptBind_ok, exceptBind_error]
    · intro hv hmv
      simp [runCandidate, he, hitp, hme, hv, hmv, exceptBind_ok,
        exceptBind_error]
    · intro hv hmv
      simp [runCandidate, he, hitp, hme, hv, hmv, exceptBind_ok,
        exceptBind_error]
  refine ⟨hA, ?_⟩
  have hallE : ∀ r ∈ r0r :: restr,
      (∃ v, runCandidate cfg f r = Except.ok v) ∨
        runCandidate cfg f r =
          Except.error (PyError.valueError (neitherTMsg f)) := by
    intro r hr
    obtain ⟨e, me, itp, he, hitp, hme⟩ := hok r hr
    obtain ⟨hA1, hA2, hA3⟩ := hA r e me itp he hitp hme
    cases hv : e.t.allNaN with
    | false => exact Or.inl ⟨(e.t, itp), hA1 hv⟩
    | true =>
        cases hmv : me.t.allNaN with
        | false => exact Or.inl ⟨(me.t, itp), hA2 hv hmv⟩
        | true => exact Or.inr (hA3 hv hmv)
  have hexE : ∃ r ∈ r0r :: restr,
      runCandidate cfg f r =
        Except.error (PyError.valueError (neitherTMsg f)) := by
    obtain ⟨r, hr, e, me, he, hme, hv, hmv⟩ := hbad
    obtain ⟨e2, me2, itp, he2, hitp2, hme2⟩ := hok r hr
    have hee : e2 = e := Option.some.inj (he2.symm.trans he)
    have hmm : me2 = me := Option.some.inj (hme2.symm.trans hme)
    refine ⟨r, hr, ?_⟩
    exact (hA r e me itp he (hee ▸ hitp2) hme).2.2 hv hmv
  have hcoll : collectRuns cfg f (r0r :: restr) =
      Except.error (PyError.valueError (neitherTMsg f)) :=
    collectRuns_error (r0r :: restr) hallE hexE
  have hstore : storeFeature cfg (r0r :: restr) r0r f =
      Except.error (PyError.valueError (neitherTMsg f)) := by
    unfold storeFeature
    rw [hdecl, if_pos rfl, he0]
    show (if e0.U.ndim ≥ 2 then
            Except.error (PyError.notImplementedError (notImplMsg f))
          else if e0.U.ndim = 1 then do
            let pairs ← collectRuns cfg f (r0r :: restr)
            Except.ok (apply_interpolation (pairs.map Prod.fst)
              (pairs.map Prod.snd))
          else do
            let us ← collectUs f (r0r :: restr)
            Except.ok (e0.t, us)) = _
    rw [if_neg (by rw [hU1]; decide), if_pos hU1, hcoll]
    rfl
  have hstoreAll : storeAll cfg (r0r :: restr) r0r r0.keys =
      Except.error (PyError.valueError (neitherTMsg f)) := by
    rw [hsplit]
    exact storeAll_error post pre hpre hstore
  simp only [results_to_data]
  rw [hcheck, hres]
  show (do
    let stored ← storeAll cfg (r0r :: restr) r0r r0.keys
    Except.ok
      { modelName := cfg.modelName,
        features := stored.map (fun p =>
          (p.1, { labels := labelsFor cfg p.1,
                  t := p.2.1, U := p.2.2 })) } : Except PyError UQData) = _
  rw [hstoreAll]
  rfl

def cfgC7 : UQConfig := ⟨"m", false, ["B"], ["x"], []⟩

def w7r0 : Result :=
  [("B", ⟨nan0, arr1, some idInterp⟩), ("m", ⟨nan0, arr2, none⟩)]

def w7 : List Result := [w7r0]

/-- C7, witness: feature `"B"` is declared adaptive with a 1-D output, and
in the single run neither `"B"` nor the model has a usable time axis;
`results_to_data` fails with the fatal `ValueError`. -/
theorem claim_C7_witness :
    nan0.allNaN = true ∧
      results_to_data cfgC7 w7 =
        Except.error (PyError.valueError (neitherTMsg "B")) :=
  ⟨by decide,
    (claim_C7_time_axis_fallback cfgC7 w7r0 [] w7r0 [] "B" [] ["m"]
      ⟨nan0, arr1, some idInterp⟩ rfl (by decide) rfl
      (fun g hg => absurd hg (List.not_mem_nil g))
      (by decide) rfl (by decide)
      (by
        intro r hr
        rw [List.mem_singleton] at hr
        subst hr
        exact ⟨⟨nan0, arr1, some idInterp⟩, ⟨nan0, arr2, none⟩, idInterp,
          rfl, rfl, rfl⟩)
      ⟨w7r0, List.mem_singleton_self w7r0,
        ⟨nan0, arr1, some idInterp⟩, ⟨nan0, arr2, none⟩,
        rfl, rfl, by decide, by decide⟩).2⟩

end RunModel
